import Mathlib

/-!
Verification of the `genius_c` UTF-8 codec (`src/utf8.h`).

The embedding models a forward byte iterator as the list of bytes still
ahead of the cursor (`List Nat`, each element a byte value).  Advancing
the iterator by one byte is dropping the head of that list; the end
sentinel is the empty list, and the distance from the cursor to the end
is the length of the list.  Bytes and code points are `Nat`; every mask
and shift of the C++ source is kept literally (`&&&`, `|||`, `>>>`,
`<<<`).  The single C++ exception type `InvalidUtf8` carries one of
three message strings; it is modelled as a three-constructor inductive,
one constructor per message.
-/

/-- The three failure messages of the C++ `InvalidUtf8` exception:
`truncatedSequence` is "utf8 sequence too short. Expected more bytes",
`invalidTrailByte` is "invalid trailing byte for utf8 sequence", and
`invalidLeadByte` is "invalid leading byte for utf8 sequence". -/
inductive InvalidUtf8 where
  | truncatedSequence
  | invalidTrailByte
  | invalidLeadByte
deriving DecidableEq, Repr

/-- `getUtf8SequenceLength` from `src/utf8.h` lines 30-56: the length of a
UTF-8 sequence as declared by its lead byte, 0 when the byte is not a
valid lead byte. -/
def getUtf8SequenceLength (byte : Nat) : Nat :=
  if byte &&& 0x80 = 0 then 1
  else if byte &&& 0xe0 = 0xc0 then 2
  else if byte &&& 0xf0 = 0xe0 then 3
  else if byte &&& 0xf8 = 0xf0 then 4
  else if byte &&& 0xfc = 0xf8 then 5
  else if byte &&& 0xfe = 0xfc then 6
  else 0

/-- `isValidUtf8LeadByte` from `src/utf8.h` lines 65-68. -/
def isValidUtf8LeadByte (byte : Nat) : Bool :=
  getUtf8SequenceLength byte != 0

/-- `isValidUtf8TrailByte` from `src/utf8.h` lines 76-79. -/
def isValidUtf8TrailByte (byte : Nat) : Bool :=
  byte &&& 0xc0 = 0x80

/-- The trailing-byte loop of `getUtf8Character` (`src/utf8.h` lines
108-112): offsets `1 .. numberOfBytes - 1` from the cursor must all hold
valid trailing bytes.  `List.range (numberOfBytes - 1)` enumerates
`x = 0 .. numberOfBytes - 2`, standing for the C++ loop index `x + 1`. -/
def trailBytesValid (octetIterator : List Nat) (numberOfBytes : Nat) : Bool :=
  (List.range (numberOfBytes - 1)).all fun x =>
    isValidUtf8TrailByte (octetIterator.getD (x + 1) 0)

/-- `getUtf8Character` from `src/utf8.h` lines 96-161.  The result pairs
the decoded code point (or the raised error) with the final iterator
position; the C++ switch advances the iterator once per consumed byte,
hence the `List.drop numberOfBytes` in each success case.  The
unreachable fall-through of the C++ switch (a declared length above 6,
which `getUtf8SequenceLength` never produces) leaves `value = 0` and the
iterator untouched, which the final catch-all arm mirrors. -/
def getUtf8Character (octetIterator : List Nat) :
    Except InvalidUtf8 Nat × List Nat :=
  let numberOfBytes := getUtf8SequenceLength (octetIterator.getD 0 0)
  if octetIterator.length < numberOfBytes then
    (Except.error InvalidUtf8.truncatedSequence, octetIterator)
  else if trailBytesValid octetIterator numberOfBytes = false then
    (Except.error InvalidUtf8.invalidTrailByte, octetIterator)
  else
    match numberOfBytes with
    | 0 => (Except.error InvalidUtf8.invalidLeadByte, octetIterator)
    | 1 => (Except.ok (octetIterator.getD 0 0 &&& 0x7f), octetIterator.drop 1)
    | 2 => (Except.ok (((octetIterator.getD 0 0 &&& 0x1f) <<< 6) |||
                       (octetIterator.getD 1 0 &&& 0x3f)),
            octetIterator.drop 2)
    | 3 => (Except.ok (((octetIterator.getD 0 0 &&& 0xf) <<< 12) |||
                       ((octetIterator.getD 1 0 &&& 0x3f) <<< 6) |||
                       (octetIterator.getD 2 0 &&& 0x3f)),
            octetIterator.drop 3)
    | 4 => (Except.ok (((octetIterator.getD 0 0 &&& 0x7) <<< 18) |||
                       ((octetIterator.getD 1 0 &&& 0x3f) <<< 12) |||
                       ((octetIterator.getD 2 0 &&& 0x3f) <<< 6) |||
                       (octetIterator.getD 3 0 &&& 0x3f)),
            octetIterator.drop 4)
    | 5 => (Except.ok (((octetIterator.getD 0 0 &&& 0x3) <<< 24) |||
                       ((octetIterator.getD 1 0 &&& 0x3f) <<< 18) |||
                       ((octetIterator.getD 2 0 &&& 0x3f) <<< 12) |||
                       ((octetIterator.getD 3 0 &&& 0x3f) <<< 6) |||
                       (octetIterator.getD 4 0 &&& 0x3f)),
            octetIterator.drop 5)
    | 6 => (Except.ok (((octetIterator.getD 0 0 &&& 0x1) <<< 30) |||
                       ((octetIterator.getD 1 0 &&& 0x3f) <<< 24) |||
                       ((octetIterator.getD 2 0 &&& 0x3f) <<< 18) |||
                       ((octetIterator.getD 3 0 &&& 0x3f) <<< 12) |||
                       ((octetIterator.getD 4 0 &&& 0x3f) <<< 6) |||
                       (octetIterator.getD 5 0 &&& 0x3f)),
            octetIterator.drop 6)
    | _ => (Except.ok 0, octetIterator)

/-- `put_utf8_char` from `src/utf8.h` lines 168-214: the bytes appended
for one code point, in order.  Each appended byte expression is below
256, so the C++ narrowing of the assigned `uint32_t` to a byte is the
identity (in the 1-byte branch because of the guard `value < 0x80`). -/
def put_utf8_char (value : Nat) : List Nat :=
  if value < 0x80 then
    [value]
  else if value < 0x800 then
    [0xc0 ||| ((value >>> 6) &&& 0x1f),
     0x80 ||| (value &&& 0x3f)]
  else if value < 0x10000 then
    [0xe0 ||| ((value >>> 12) &&& 0xf),
     0x80 ||| ((value >>> 6) &&& 0x3f),
     0x80 ||| (value &&& 0x3f)]
  else if value < 0x200000 then
    [0xf0 ||| ((value >>> 18) &&& 0x7),
     0x80 ||| ((value >>> 12) &&& 0x3f),
     0x80 ||| ((value >>> 6) &&& 0x3f),
     0x80 ||| (value &&& 0x3f)]
  else if value < 0x4000000 then
    [0xf8 ||| ((value >>> 24) &&& 0x3),
     0x80 ||| ((value >>> 18) &&& 0x3f),
     0x80 ||| ((value >>> 12) &&& 0x3f),
     0x80 ||| ((value >>> 6) &&& 0x3f),
     0x80 ||| (value &&& 0x3f)]
  else
    [0xfc ||| ((value >>> 30) &&& 0x1),
     0x80 ||| ((value >>> 24) &&& 0x3f),
     0x80 ||| ((value >>> 18) &&& 0x3f),
     0x80 ||| ((value >>> 12) &&& 0x3f),
     0x80 ||| ((value >>> 6) &&& 0x3f),
     0x80 ||| (value &&& 0x3f)]

/-- `appendUtf8` from `src/utf8.h` lines 222-226: append the encoding of
one code point to a container. -/
def appendUtf8 (container : List Nat) (codePoint : Nat) : List Nat :=
  container ++ put_utf8_char codePoint

/-- `convertWStringToUtf8` from `src/utf8.h` lines 233-239 (the spec
calls it `encodeAll`): encode each wide character in order into one byte
sequence.  The C++ `static_cast` of the wide character to `uint32_t`
keeps its low 32 bits, hence the reduction modulo `2 ^ 32`. -/
def convertWStringToUtf8 (wstr : List Nat) : List Nat :=
  wstr.foldl (fun s ch => appendUtf8 s (ch % 4294967296)) []

/-- The `while` loop of `convertUtf8ToWString` (`src/utf8.h` lines
248-257): decode sequences left to right until the iterator reaches the
end, collecting the code points in order; a raised error aborts the loop
and propagates.  The C++ `static_cast` of the decoded `uint32_t` to
`wchar_t` (32 bits wide here) keeps the 32-bit value, so the collected
element is the decoded value itself. -/
def convertUtf8ToWStringLoop (it : List Nat) : Except InvalidUtf8 (List Nat) :=
  if it = [] then
    Except.ok []
  else
    match h2 : getUtf8Character it with
    | (Except.error e, _) => Except.error e
    | (Except.ok v, it2) =>
      match convertUtf8ToWStringLoop it2 with
      | Except.error e => Except.error e
      | Except.ok rest => Except.ok (v :: rest)
termination_by it.length
decreasing_by
  have hle : getUtf8SequenceLength (it.getD 0 0) ≤ 6 := by
    unfold getUtf8SequenceLength
    repeat' split
    all_goals omega
  simp only [getUtf8Character] at h2
  split at h2
  · exact absurd h2 (by simp)
  split at h2
  · exact absurd h2 (by simp)
  split at h2 <;>
    first
      | (simp at h2; done)
      | (simp only [imp_false] at *; omega)
      | (have hsnd := congrArg Prod.snd h2
         try simp only at hsnd
         subst hsnd
         simp only [List.length_drop]
         omega)

/-- `convertUtf8ToWString` from `src/utf8.h` lines 247-257 (the spec
calls it `decodeAll`): run the decode loop from the start of the byte
sequence. -/
def convertUtf8ToWString (str : List Nat) : Except InvalidUtf8 (List Nat) :=
  convertUtf8ToWStringLoop str

/-- Mask with `0x7f` is reduction modulo `2 ^ 7`. -/
theorem and_127_eq (x : Nat) : x &&& 127 = x % 2 ^ 7 :=
  Nat.and_pow_two_sub_one_eq_mod x 7

/-- Mask with `0x3f` is reduction modulo `2 ^ 6`. -/
theorem and_63_eq (x : Nat) : x &&& 63 = x % 2 ^ 6 :=
  Nat.and_pow_two_sub_one_eq_mod x 6

/-- Mask with `0x1f` is reduction modulo `2 ^ 5`. -/
theorem and_31_eq (x : Nat) : x &&& 31 = x % 2 ^ 5 :=
  Nat.and_pow_two_sub_one_eq_mod x 5

/-- Mask with `0xf` is reduction modulo `2 ^ 4`. -/
theorem and_15_eq (x : Nat) : x &&& 15 = x % 2 ^ 4 :=
  Nat.and_pow_two_sub_one_eq_mod x 4

/-- Mask with `0x7` is reduction modulo `2 ^ 3`. -/
theorem and_7_eq (x : Nat) : x &&& 7 = x % 2 ^ 3 :=
  Nat.and_pow_two_sub_one_eq_mod x 3

/-- Mask with `0x3` is reduction modulo `2 ^ 2`. -/
theorem and_3_eq (x : Nat) : x &&& 3 = x % 2 ^ 2 :=
  Nat.and_pow_two_sub_one_eq_mod x 2

/-- Mask with `0x1` is reduction modulo `2`. -/
theorem and_1_eq (x : Nat) : x &&& 1 = x % 2 :=
  Nat.and_one_is_mod x

/-- Shifting left and then or-ing in fewer than `k` low bits is plain
place-value addition (the two operands occupy disjoint bit ranges). -/
theorem lor_shiftLeft_eq_add (k a b : Nat) (hb : b < 2 ^ k) :
    (a <<< k) ||| b = 2 ^ k * a + b := by
  rw [Nat.shiftLeft_eq, Nat.mul_comm a (2 ^ k), ← Nat.mul_add_lt_is_or hb a]

/-- An ASCII byte (high bit clear) classifies as a 1-byte sequence. -/
theorem seqLen_ascii : ∀ b, b < 128 → getUtf8SequenceLength b = 1 := by decide

/-- A `110xxxxx` byte classifies as a 2-byte lead. -/
theorem seqLen_lead2 : ∀ t, t < 32 → getUtf8SequenceLength (0xc0 ||| t) = 2 := by
  decide

/-- A `1110xxxx` byte classifies as a 3-byte lead. -/
theorem seqLen_lead3 : ∀ t, t < 16 → getUtf8SequenceLength (0xe0 ||| t) = 3 := by
  decide

/-- A `11110xxx` byte classifies as a 4-byte lead. -/
theorem seqLen_lead4 : ∀ t, t < 8 → getUtf8SequenceLength (0xf0 ||| t) = 4 := by
  decide

/-- A `111110xx` byte classifies as a 5-byte lead. -/
theorem seqLen_lead5 : ∀ t, t < 4 → getUtf8SequenceLength (0xf8 ||| t) = 5 := by
  decide

/-- A `1111110x` byte classifies as a 6-byte lead. -/
theorem seqLen_lead6 : ∀ t, t < 2 → getUtf8SequenceLength (0xfc ||| t) = 6 := by
  decide

/-- Every byte the encoder emits as a trailing byte is a valid trailing
byte. -/
theorem trail_or80_valid : ∀ m, m < 64 →
    isValidUtf8TrailByte (0x80 ||| m) = true := by decide

/-- The decoder recovers the payload of an encoded 2-byte lead. -/
theorem lead2_mask : ∀ t, t < 32 → (0xc0 ||| t) &&& 0x1f = t := by decide

/-- The decoder recovers the payload of an encoded 3-byte lead. -/
theorem lead3_mask : ∀ t, t < 16 → (0xe0 ||| t) &&& 0xf = t := by decide

/-- The decoder recovers the payload of an encoded 4-byte lead. -/
theorem lead4_mask : ∀ t, t < 8 → (0xf0 ||| t) &&& 0x7 = t := by decide

/-- The decoder recovers the payload of an encoded 5-byte lead. -/
theorem lead5_mask : ∀ t, t < 4 → (0xf8 ||| t) &&& 0x3 = t := by decide

/-- The decoder recovers the payload of an encoded 6-byte lead. -/
theorem lead6_mask : ∀ t, t < 2 → (0xfc ||| t) &&& 0x1 = t := by decide

/-- The decoder recovers the payload of an encoded trailing byte. -/
theorem trail_mask : ∀ m, m < 64 → (0x80 ||| m) &&& 0x3f = m := by decide

/-- Decoding at a 1-byte (ASCII) sequence. -/
theorem decode1 (b : Nat) (hb : b < 128) (rest : List Nat) :
    getUtf8Character (b :: rest) = (Except.ok (b &&& 0x7f), rest) := by
  have hL := seqLen_ascii b hb
  simp [getUtf8Character, trailBytesValid, hL]

/-- Decoding at a well-formed 2-byte sequence. -/
theorem decode2 (t m : Nat) (ht : t < 32) (hm : m < 64) (rest : List Nat) :
    getUtf8Character ((0xc0 ||| t) :: (0x80 ||| m) :: rest) =
      (Except.ok ((t <<< 6) ||| m), rest) := by
  have hL := seqLen_lead2 t ht
  simp [getUtf8Character, trailBytesValid, List.range_succ, hL,
    lead2_mask t ht, trail_or80_valid m hm, trail_mask m hm]

/-- Decoding at a well-formed 3-byte sequence. -/
theorem decode3 (t m1 m2 : Nat) (ht : t < 16) (h1 : m1 < 64) (h2 : m2 < 64)
    (rest : List Nat) :
    getUtf8Character ((0xe0 ||| t) :: (0x80 ||| m1) :: (0x80 ||| m2) :: rest) =
      (Except.ok ((t <<< 12) ||| (m1 <<< 6) ||| m2), rest) := by
  have hL := seqLen_lead3 t ht
  simp [getUtf8Character, trailBytesValid, List.range_succ, hL,
    lead3_mask t ht, trail_or80_valid _ h1, trail_or80_valid _ h2,
    trail_mask _ h1, trail_mask _ h2]

/-- Decoding at a well-formed 4-byte sequence. -/
theorem decode4 (t m1 m2 m3 : Nat) (ht : t < 8)
    (h1 : m1 < 64) (h2 : m2 < 64) (h3 : m3 < 64) (rest : List Nat) :
    getUtf8Character ((0xf0 ||| t) :: (0x80 ||| m1) :: (0x80 ||| m2) ::
        (0x80 ||| m3) :: rest) =
      (Except.ok ((t <<< 18) ||| (m1 <<< 12) ||| (m2 <<< 6) ||| m3), rest) := by
  have hL := seqLen_lead4 t ht
  simp [getUtf8Character, trailBytesValid, List.range_succ, hL,
    lead4_mask t ht, trail_or80_valid _ h1, trail_or80_valid _ h2,
    trail_or80_valid _ h3, trail_mask _ h1, trail_mask _ h2, trail_mask _ h3]

/-- Decoding at a well-formed 5-byte sequence. -/
theorem decode5 (t m1 m2 m3 m4 : Nat) (ht : t < 4)
    (h1 : m1 < 64) (h2 : m2 < 64) (h3 : m3 < 64) (h4 : m4 < 64)
    (rest : List Nat) :
    getUtf8Character ((0xf8 ||| t) :: (0x80 ||| m1) :: (0x80 ||| m2) ::
        (0x80 ||| m3) :: (0x80 ||| m4) :: rest) =
      (Except.ok ((t <<< 24) ||| (m1 <<< 18) ||| (m2 <<< 12) |||
                  (m3 <<< 6) ||| m4), rest) := by
  have hL := seqLen_lead5 t ht
  simp [getUtf8Character, trailBytesValid, List.range_succ, hL,
    lead5_mask t ht, trail_or80_valid _ h1, trail_or80_valid _ h2,
    trail_or80_valid _ h3, trail_or80_valid _ h4,
    trail_mask _ h1, trail_mask _ h2, trail_mask _ h3, trail_mask _ h4]

/-- Decoding at a well-formed 6-byte sequence. -/
theorem decode6 (t m1 m2 m3 m4 m5 : Nat) (ht : t < 2)
    (h1 : m1 < 64) (h2 : m2 < 64) (h3 : m3 < 64) (h4 : m4 < 64) (h5 : m5 < 64)
    (rest : List Nat) :
    getUtf8Character ((0xfc ||| t) :: (0x80 ||| m1) :: (0x80 ||| m2) ::
        (0x80 ||| m3) :: (0x80 ||| m4) :: (0x80 ||| m5) :: rest) =
      (Except.ok ((t <<< 30) ||| (m1 <<< 24) ||| (m2 <<< 18) |||
                  (m3 <<< 12) ||| (m4 <<< 6) ||| m5), rest) := by
  have hL := seqLen_lead6 t ht
  simp [getUtf8Character, trailBytesValid, List.range_succ, hL,
    lead6_mask t ht, trail_or80_valid _ h1, trail_or80_valid _ h2,
    trail_or80_valid _ h3, trail_or80_valid _ h4, trail_or80_valid _ h5,
    trail_mask _ h1, trail_mask _ h2, trail_mask _ h3, trail_mask _ h4,
    trail_mask _ h5]

/-- Reassembling the two encoded fields of a 2-byte sequence gives back
the code point. -/
theorem assemble2 (v : Nat) (hv : v < 0x800) :
    (((v >>> 6) &&& 0x1f) <<< 6) ||| (v &&& 0x3f) = v := by
  have hb1 : v &&& 63 < 2 ^ 6 := by rw [and_63_eq]; omega
  rw [lor_shiftLeft_eq_add 6 _ _ hb1]
  simp only [and_31_eq, and_63_eq, Nat.shiftRight_eq_div_pow]
  omega

/-- Reassembling the three encoded fields of a 3-byte sequence gives back
the code point. -/
theorem assemble3 (v : Nat) (hv : v < 0x10000) :
    (((v >>> 12) &&& 0xf) <<< 12) ||| (((v >>> 6) &&& 0x3f) <<< 6) |||
      (v &&& 0x3f) = v := by
  have hb1 : v &&& 63 < 2 ^ 6 := by rw [and_63_eq]; omega
  have hd6 : (v >>> 6) &&& 63 < 2 ^ 6 := by rw [and_63_eq]; omega
  rw [Nat.lor_assoc, lor_shiftLeft_eq_add 6 _ _ hb1]
  have hb2 : 2 ^ 6 * ((v >>> 6) &&& 63) + (v &&& 63) < 2 ^ 12 := by omega
  rw [lor_shiftLeft_eq_add 12 _ _ hb2]
  simp only [and_15_eq, and_63_eq, Nat.shiftRight_eq_div_pow]
  omega

/-- Reassembling the four encoded fields of a 4-byte sequence gives back
the code point. -/
theorem assemble4 (v : Nat) (hv : v < 0x200000) :
    (((v >>> 18) &&& 0x7) <<< 18) ||| (((v >>> 12) &&& 0x3f) <<< 12) |||
      (((v >>> 6) &&& 0x3f) <<< 6) ||| (v &&& 0x3f) = v := by
  have hb1 : v &&& 63 < 2 ^ 6 := by rw [and_63_eq]; omega
  have hd6 : (v >>> 6) &&& 63 < 2 ^ 6 := by rw [and_63_eq]; omega
  have hd12 : (v >>> 12) &&& 63 < 2 ^ 6 := by rw [and_63_eq]; omega
  rw [Nat.lor_assoc, Nat.lor_assoc, lor_shiftLeft_eq_add 6 _ _ hb1]
  have hb2 : 2 ^ 6 * ((v >>> 6) &&& 63) + (v &&& 63) < 2 ^ 12 := by omega
  rw [lor_shiftLeft_eq_add 12 _ _ hb2]
  have hb3 : 2 ^ 12 * ((v >>> 12) &&& 63) +
      (2 ^ 6 * ((v >>> 6) &&& 63) + (v &&& 63)) < 2 ^ 18 := by omega
  rw [lor_shiftLeft_eq_add 18 _ _ hb3]
  simp only [and_7_eq, and_63_eq, Nat.shiftRight_eq_div_pow]
  omega

/-- Reassembling the five encoded fields of a 5-byte sequence gives back
the code point. -/
theorem assemble5 (v : Nat) (hv : v < 0x4000000) :
    (((v >>> 24) &&& 0x3) <<< 24) ||| (((v >>> 18) &&& 0x3f) <<< 18) |||
      (((v >>> 12) &&& 0x3f) <<< 12) ||| (((v >>> 6) &&& 0x3f) <<< 6) |||
      (v &&& 0x3f) = v := by
  have hb1 : v &&& 63 < 2 ^ 6 := by rw [and_63_eq]; omega
  have hd6 : (v >>> 6) &&& 63 < 2 ^ 6 := by rw [and_63_eq]; omega
  have hd12 : (v >>> 12) &&& 63 < 2 ^ 6 := by rw [and_63_eq]; omega
  have hd18 : (v >>> 18) &&& 63 < 2 ^ 6 := by rw [and_63_eq]; omega
  rw [Nat.lor_assoc, Nat.lor_assoc, Nat.lor_assoc,
    lor_shiftLeft_eq_add 6 _ _ hb1]
  have hb2 : 2 ^ 6 * ((v >>> 6) &&& 63) + (v &&& 63) < 2 ^ 12 := by omega
  rw [lor_shiftLeft_eq_add 12 _ _ hb2]
  have hb3 : 2 ^ 12 * ((v >>> 12) &&& 63) +
      (2 ^ 6 * ((v >>> 6) &&& 63) + (v &&& 63)) < 2 ^ 18 := by omega
  rw [lor_shiftLeft_eq_add 18 _ _ hb3]
  have hb4 : 2 ^ 18 * ((v >>> 18) &&& 63) + (2 ^ 12 * ((v >>> 12) &&& 63) +
      (2 ^ 6 * ((v >>> 6) &&& 63) + (v &&& 63))) < 2 ^ 24 := by omega
  rw [lor_shiftLeft_eq_add 24 _ _ hb4]
  simp only [and_3_eq, and_63_eq, Nat.shiftRight_eq_div_pow]
  omega

/-- Reassembling the six encoded fields of a 6-byte sequence gives back
the code point (for code points within the 31-bit range). -/
theorem assemble6 (v : Nat) (hv : v < 2 ^ 31) :
    (((v >>> 30) &&& 0x1) <<< 30) ||| (((v >>> 24) &&& 0x3f) <<< 24) |||
      (((v >>> 18) &&& 0x3f) <<< 18) ||| (((v >>> 12) &&& 0x3f) <<< 12) |||
      (((v >>> 6) &&& 0x3f) <<< 6) ||| (v &&& 0x3f) = v := by
  have hb1 : v &&& 63 < 2 ^ 6 := by rw [and_63_eq]; omega
  have hd6 : (v >>> 6) &&& 63 < 2 ^ 6 := by rw [and_63_eq]; omega
  have hd12 : (v >>> 12) &&& 63 < 2 ^ 6 := by rw [and_63_eq]; omega
  have hd18 : (v >>> 18) &&& 63 < 2 ^ 6 := by rw [and_63_eq]; omega
  have hd24 : (v >>> 24) &&& 63 < 2 ^ 6 := by rw [and_63_eq]; omega
  rw [Nat.lor_assoc, Nat.lor_assoc, Nat.lor_assoc, Nat.lor_assoc,
    lor_shiftLeft_eq_add 6 _ _ hb1]
  have hb2 : 2 ^ 6 * ((v >>> 6) &&& 63) + (v &&& 63) < 2 ^ 12 := by omega
  rw [lor_shiftLeft_eq_add 12 _ _ hb2]
  have hb3 : 2 ^ 12 * ((v >>> 12) &&& 63) +
      (2 ^ 6 * ((v >>> 6) &&& 63) + (v &&& 63)) < 2 ^ 18 := by omega
  rw [lor_shiftLeft_eq_add 18 _ _ hb3]
  have hb4 : 2 ^ 18 * ((v >>> 18) &&& 63) + (2 ^ 12 * ((v >>> 12) &&& 63) +
      (2 ^ 6 * ((v >>> 6) &&& 63) + (v &&& 63))) < 2 ^ 24 := by omega
  rw [lor_shiftLeft_eq_add 24 _ _ hb4]
  have hb5 : 2 ^ 24 * ((v >>> 24) &&& 63) + (2 ^ 18 * ((v >>> 18) &&& 63) +
      (2 ^ 12 * ((v >>> 12) &&& 63) +
        (2 ^ 6 * ((v >>> 6) &&& 63) + (v &&& 63)))) < 2 ^ 30 := by omega
  rw [lor_shiftLeft_eq_add 30 _ _ hb5]
  simp only [and_1_eq, and_63_eq, Nat.shiftRight_eq_div_pow]
  omega

/-- Core round-trip: decoding directly after encoding yields the original
code point (31-bit range) and leaves the cursor exactly past the written
bytes, for any bytes that follow. -/
theorem put_get (v : Nat) (hv : v < 2 ^ 31) (rest : List Nat) :
    getUtf8Character (put_utf8_char v ++ rest) = (Except.ok v, rest) := by
  by_cases c1 : v < 0x80
  · simp only [put_utf8_char, if_pos c1, List.cons_append, List.nil_append]
    rw [decode1 v (by omega) rest]
    have hval : v &&& 0x7f = v := by rw [and_127_eq]; omega
    rw [hval]
  by_cases c2 : v < 0x800
  · simp only [put_utf8_char, if_neg c1, if_pos c2, List.cons_append,
      List.nil_append]
    rw [decode2 ((v >>> 6) &&& 0x1f) (v &&& 0x3f)
      (by have := @Nat.and_le_right (v >>> 6) 31; omega)
      (by have := @Nat.and_le_right v 63; omega) rest]
    rw [assemble2 v c2]
  by_cases c3 : v < 0x10000
  · simp only [put_utf8_char, if_neg c1, if_neg c2, if_pos c3,
      List.cons_append, List.nil_append]
    rw [decode3 ((v >>> 12) &&& 0xf) ((v >>> 6) &&& 0x3f) (v &&& 0x3f)
      (by have := @Nat.and_le_right (v >>> 12) 15; omega)
      (by have := @Nat.and_le_right (v >>> 6) 63; omega)
      (by have := @Nat.and_le_right v 63; omega) rest]
    rw [assemble3 v c3]
  by_cases c4 : v < 0x200000
  · simp only [put_utf8_char, if_neg c1, if_neg c2, if_neg c3, if_pos c4,
      List.cons_append, List.nil_append]
    rw [decode4 ((v >>> 18) &&& 0x7) ((v >>> 12) &&& 0x3f)
      ((v >>> 6) &&& 0x3f) (v &&& 0x3f)
      (by have := @Nat.and_le_right (v >>> 18) 7; omega)
      (by have := @Nat.and_le_right (v >>> 12) 63; omega)
      (by have := @Nat.and_le_right (v >>> 6) 63; omega)
      (by have := @Nat.and_le_right v 63; omega) rest]
    rw [assemble4 v c4]
  by_cases c5 : v < 0x4000000
  · simp only [put_utf8_char, if_neg c1, if_neg c2, if_neg c3, if_neg c4,
      if_pos c5, List.cons_append, List.nil_append]
    rw [decode5 ((v >>> 24) &&& 0x3) ((v >>> 18) &&& 0x3f)
      ((v >>> 12) &&& 0x3f) ((v >>> 6) &&& 0x3f) (v &&& 0x3f)
      (by have := @Nat.and_le_right (v >>> 24) 3; omega)
      (by have := @Nat.and_le_right (v >>> 18) 63; omega)
      (by have := @Nat.and_le_right (v >>> 12) 63; omega)
      (by have := @Nat.and_le_right (v >>> 6) 63; omega)
      (by have := @Nat.and_le_right v 63; omega) rest]
    rw [assemble5 v c5]
  · simp only [put_utf8_char, if_neg c1, if_neg c2, if_neg c3, if_neg c4,
      if_neg c5, List.cons_append, List.nil_append]
    rw [decode6 ((v >>> 30) &&& 0x1) ((v >>> 24) &&& 0x3f)
      ((v >>> 18) &&& 0x3f) ((v >>> 12) &&& 0x3f) ((v >>> 6) &&& 0x3f)
      (v &&& 0x3f)
      (by have := @Nat.and_le_right (v >>> 30) 1; omega)
      (by have := @Nat.and_le_right (v >>> 24) 63; omega)
      (by have := @Nat.and_le_right (v >>> 18) 63; omega)
      (by have := @Nat.and_le_right (v >>> 12) 63; omega)
      (by have := @Nat.and_le_right (v >>> 6) 63; omega)
      (by have := @Nat.and_le_right v 63; omega) rest]
    rw [assemble6 v hv]

/-- The encoder loop with a non-empty accumulator: the accumulator is a
prefix of the final output. -/
theorem convertWStringToUtf8_acc (ws s : List Nat) :
    ws.foldl (fun s ch => appendUtf8 s (ch % 4294967296)) s =
      s ++ ws.foldl (fun s ch => appendUtf8 s (ch % 4294967296)) [] := by
  induction ws generalizing s with
  | nil => simp
  | cons c cs ih =>
    simp only [List.foldl_cons]
    rw [ih (appendUtf8 s (c % 4294967296)),
      ih (appendUtf8 [] (c % 4294967296))]
    simp [appendUtf8, List.append_assoc]

/-- One step of the encoder stream: the bytes of the first code point,
then the encoding of the remaining ones. -/
theorem convertWStringToUtf8_cons (c : Nat) (cs : List Nat) :
    convertWStringToUtf8 (c :: cs) =
      put_utf8_char (c % 4294967296) ++ convertWStringToUtf8 cs := by
  simp only [convertWStringToUtf8, List.foldl_cons]
  rw [convertWStringToUtf8_acc]
  simp [appendUtf8]

/-- The decode loop at the end sentinel. -/
theorem convertUtf8ToWStringLoop_nil :
    convertUtf8ToWStringLoop [] = Except.ok [] := by
  simp [convertUtf8ToWStringLoop]

/-- The decode loop propagates a decode error raised at the cursor. -/
theorem convertUtf8ToWStringLoop_error {it it2 : List Nat} {e : InvalidUtf8}
    (hne : it ≠ []) (h : getUtf8Character it = (Except.error e, it2)) :
    convertUtf8ToWStringLoop it = Except.error e := by
  rw [convertUtf8ToWStringLoop, if_neg hne]
  split <;> simp_all

/-- The decode loop after a successful first decode whose continuation
also succeeds. -/
theorem convertUtf8ToWStringLoop_ok_ok {it it2 rest : List Nat} {v : Nat}
    (hne : it ≠ []) (h : getUtf8Character it = (Except.ok v, it2))
    (h2 : convertUtf8ToWStringLoop it2 = Except.ok rest) :
    convertUtf8ToWStringLoop it = Except.ok (v :: rest) := by
  rw [convertUtf8ToWStringLoop, if_neg hne]
  split <;> simp_all

/-- The decode loop after a successful first decode whose continuation
fails: the error propagates and the decoded code point is discarded. -/
theorem convertUtf8ToWStringLoop_ok_error {it it2 : List Nat} {v : Nat}
    {e : InvalidUtf8}
    (hne : it ≠ []) (h : getUtf8Character it = (Except.ok v, it2))
    (h2 : convertUtf8ToWStringLoop it2 = Except.error e) :
    convertUtf8ToWStringLoop it = Except.error e := by
  rw [convertUtf8ToWStringLoop, if_neg hne]
  split <;> simp_all

/-- The number of bytes the encoder emits, as a function of the code
point's range. -/
theorem put_utf8_char_length (v : Nat) :
    (put_utf8_char v).length =
      if v < 0x80 then 1 else if v < 0x800 then 2
      else if v < 0x10000 then 3 else if v < 0x200000 then 4
      else if v < 0x4000000 then 5 else 6 := by
  unfold put_utf8_char
  repeat' split
  all_goals simp_all

/-- The encoder always emits at least one byte. -/
theorem put_utf8_char_ne_nil (v : Nat) : put_utf8_char v ≠ [] := by
  have h := put_utf8_char_length v
  intro hc
  rw [hc] at h
  simp at h
  repeat' split at h
  all_goals omega

/-- Decoding an encoded code-point sequence (each below `2 ^ 31`)
recovers the sequence exactly. -/
theorem decodeAll_encodeAll (cs : List Nat) (h : ∀ c ∈ cs, c < 2 ^ 31) :
    convertUtf8ToWString (convertWStringToUtf8 cs) = Except.ok cs := by
  induction cs with
  | nil => exact convertUtf8ToWStringLoop_nil
  | cons c cs ih =>
    have hc : c < 2 ^ 31 := h c (by simp)
    have hmod : c % 4294967296 = c := Nat.mod_eq_of_lt (by omega)
    have hne : put_utf8_char c ++ convertWStringToUtf8 cs ≠ [] := by
      intro hcontra
      exact put_utf8_char_ne_nil c (List.append_eq_nil.mp hcontra).1
    have hdec := put_get c hc (convertWStringToUtf8 cs)
    have hrest : convertUtf8ToWStringLoop (convertWStringToUtf8 cs) =
        Except.ok cs := ih (fun x hx => h x (by simp [hx]))
    calc convertUtf8ToWString (convertWStringToUtf8 (c :: cs))
        = convertUtf8ToWStringLoop
            (put_utf8_char c ++ convertWStringToUtf8 cs) := by
          rw [convertUtf8ToWString, convertWStringToUtf8_cons, hmod]
      _ = Except.ok (c :: cs) :=
          convertUtf8ToWStringLoop_ok_ok hne hdec hrest

/-- Claim C1: for every code point in the representable range
(`0 ≤ v < 2 ^ 31`), encoding with `put_utf8_char` and then decoding the
resulting bytes with `getUtf8Character` returns exactly `v`, with the
cursor consuming exactly the bytes written (the final iterator is the
end of the written sequence). -/
theorem C1_encode_decode_roundtrip (v : Nat) (hv : v < 2 ^ 31) :
    getUtf8Character (put_utf8_char v) = (Except.ok v, []) := by
  simpa using put_get v hv []

/-- Witness for claim C1 at the concrete code point `0x10348`. -/
theorem C1_encode_decode_roundtrip_witness :
    (0x10348 : Nat) < 2 ^ 31 ∧
    getUtf8Character (put_utf8_char 0x10348) = (Except.ok 0x10348, []) :=
  ⟨by decide, C1_encode_decode_roundtrip 0x10348 (by decide)⟩

/-- Claim C3: the encoder emits exactly 1 byte iff `v < 0x80`, 2 bytes
iff `0x80 ≤ v < 0x800`, 3 bytes iff `0x800 ≤ v < 0x10000`, 4 bytes iff
`0x10000 ≤ v < 0x200000`, 5 bytes iff `0x200000 ≤ v < 0x4000000`, and 6
bytes otherwise; each documented boundary pair therefore crosses exactly
one length transition. -/
theorem C3_encoder_length_boundaries (v : Nat) :
    ((put_utf8_char v).length = 1 ↔ v < 0x80) ∧
    ((put_utf8_char v).length = 2 ↔ 0x80 ≤ v ∧ v < 0x800) ∧
    ((put_utf8_char v).length = 3 ↔ 0x800 ≤ v ∧ v < 0x10000) ∧
    ((put_utf8_char v).length = 4 ↔ 0x10000 ≤ v ∧ v < 0x200000) ∧
    ((put_utf8_char v).length = 5 ↔ 0x200000 ≤ v ∧ v < 0x4000000) ∧
    ((put_utf8_char v).length = 6 ↔ 0x4000000 ≤ v) := by
  have h := put_utf8_char_length v
  repeat' split at h
  all_goals rw [h]
  all_goals omega

/-- Claim C6: the encoder is total and never fails: every code point
yields between 1 and 6 appended bytes, and consequently the stream
encoder succeeds on every code-point sequence, emitting between
`length` and `6 * length` bytes. -/
theorem C6_encoder_total :
    (∀ v : Nat, 1 ≤ (put_utf8_char v).length ∧ (put_utf8_char v).length ≤ 6) ∧
    (∀ ws : List Nat, ws.length ≤ (convertWStringToUtf8 ws).length ∧
      (convertWStringToUtf8 ws).length ≤ 6 * ws.length) := by
  constructor
  · intro v
    have h := put_utf8_char_length v
    repeat' split at h
    all_goals omega
  · intro ws
    induction ws with
    | nil => simp [convertWStringToUtf8]
    | cons c cs ih =>
      rw [convertWStringToUtf8_cons]
      simp only [List.length_append, List.length_cons]
      have h := put_utf8_char_length (c % 4294967296)
      repeat' split at h
      all_goals omega

/-- Claim C8: encoding the single extended-range code point `0x10348`
yields exactly the 4-byte sequence `0xF0 0x90 0x8D 0x88`. -/
theorem C8_extended_range_encoding :
    convertWStringToUtf8 [0x10348] = [0xf0, 0x90, 0x8d, 0x88] := by rfl

/-- Claim C10: overlong encodings are accepted: the decoder accepts the
2-byte sequence `0xC0 0x80` and returns code point 0, while the encoder
produces the distinct single byte `0x00` for code point 0 (so two
distinct accepted sequences decode to the same code point). -/
theorem C10_overlong_accepted :
    getUtf8Character [0xc0, 0x80] = (Except.ok 0, []) ∧
    getUtf8Character [0x00] = (Except.ok 0, []) ∧
    put_utf8_char 0 = [0x00] ∧
    ([0xc0, 0x80] : List Nat) ≠ [0x00] := by
  refine ⟨by rfl, by rfl, by rfl, by decide⟩

set_option maxRecDepth 8192

/-- Claim C7: for every byte, the classifier returns 1 exactly on
`0xxxxxxx` (0x00-0x7F), 2 on `110xxxxx` (0xC0-0xDF), 3 on `1110xxxx`
(0xE0-0xEF), 4 on `11110xxx` (0xF0-0xF7), 5 on `111110xx` (0xF8-0xFB),
6 on `1111110x` (0xFC-0xFD), and 0 on everything else (trailing bytes
0x80-0xBF and 0xFE-0xFF); the result is always in 0-6. -/
theorem C7_sequence_length_classifier (b : Nat) (hb : b < 256) :
    (getUtf8SequenceLength b = 1 ↔ b ≤ 0x7f) ∧
    (getUtf8SequenceLength b = 2 ↔ 0xc0 ≤ b ∧ b ≤ 0xdf) ∧
    (getUtf8SequenceLength b = 3 ↔ 0xe0 ≤ b ∧ b ≤ 0xef) ∧
    (getUtf8SequenceLength b = 4 ↔ 0xf0 ≤ b ∧ b ≤ 0xf7) ∧
    (getUtf8SequenceLength b = 5 ↔ 0xf8 ≤ b ∧ b ≤ 0xfb) ∧
    (getUtf8SequenceLength b = 6 ↔ 0xfc ≤ b ∧ b ≤ 0xfd) ∧
    (getUtf8SequenceLength b = 0 ↔
      (0x80 ≤ b ∧ b ≤ 0xbf) ∨ b = 0xfe ∨ b = 0xff) ∧
    getUtf8SequenceLength b ≤ 6 := by
  revert b
  decide

/-- Witness for claim C7 at the trailing byte `0b10000000`: it is not a
valid lead byte. -/
theorem C7_sequence_length_classifier_witness :
    getUtf8SequenceLength 0b10000000 = 0 :=
  (C7_sequence_length_classifier 0b10000000 (by decide)).2.2.2.2.2.2.1.mpr
    (Or.inl ⟨by decide, by decide⟩)

/-- Claim C4: the decoder checks buffer sufficiency before trailing-byte
validity, and trailing-byte validity before lead-byte rejection, making
the reported error kind a deterministic function of the input; in
particular the single byte `0xC2` raises the truncation error, the bytes
`0xC2 0x20` raise the invalid-trailing-byte error, and the single byte
`0xFF` raises the invalid-lead-byte error. -/
theorem C4_validation_order :
    (∀ it : List Nat,
      (it.length < getUtf8SequenceLength (it.getD 0 0) →
        getUtf8Character it =
          (Except.error InvalidUtf8.truncatedSequence, it)) ∧
      (¬ it.length < getUtf8SequenceLength (it.getD 0 0) →
        trailBytesValid it (getUtf8SequenceLength (it.getD 0 0)) = false →
        getUtf8Character it =
          (Except.error InvalidUtf8.invalidTrailByte, it)) ∧
      (¬ it.length < getUtf8SequenceLength (it.getD 0 0) →
        trailBytesValid it (getUtf8SequenceLength (it.getD 0 0)) = true →
        getUtf8SequenceLength (it.getD 0 0) = 0 →
        getUtf8Character it =
          (Except.error InvalidUtf8.invalidLeadByte, it))) ∧
    getUtf8Character [0xc2] =
      (Except.error InvalidUtf8.truncatedSequence, [0xc2]) ∧
    getUtf8Character [0xc2, 0x20] =
      (Except.error InvalidUtf8.invalidTrailByte, [0xc2, 0x20]) ∧
    getUtf8Character [0xff] =
      (Except.error InvalidUtf8.invalidLeadByte, [0xff]) := by
  refine ⟨fun it => ⟨fun h1 => ?_, fun h1 h2 => ?_, fun h1 h2 h3 => ?_⟩,
    by rfl, by rfl, by rfl⟩
  · simp only [getUtf8Character]
    rw [if_pos h1]
  · simp only [getUtf8Character]
    rw [if_neg h1, if_pos h2]
  · simp only [getUtf8Character]
    rw [if_neg h1, h2, if_neg (by simp), h3]

/-- Witness for claim C4: the general priority clauses applied at the
three concrete inputs. -/
theorem C4_validation_order_witness :
    getUtf8Character [0xc2] =
      (Except.error InvalidUtf8.truncatedSequence, [0xc2]) ∧
    getUtf8Character [0xc2, 0x20] =
      (Except.error InvalidUtf8.invalidTrailByte, [0xc2, 0x20]) ∧
    getUtf8Character [0xff] =
      (Except.error InvalidUtf8.invalidLeadByte, [0xff]) :=
  ⟨(C4_validation_order.1 [0xc2]).1 (by decide),
   (C4_validation_order.1 [0xc2, 0x20]).2.1 (by decide) (by decide),
   (C4_validation_order.1 [0xff]).2.2 (by decide) (by decide) (by decide)⟩

/-- On every error the decoder leaves the iterator exactly at its
starting position (each error is raised before any cursor advance). -/
theorem getUtf8Character_error_iterator {it it2 : List Nat}
    {e : InvalidUtf8}
    (h : getUtf8Character it = (Except.error e, it2)) : it2 = it := by
  simp only [getUtf8Character] at h
  split at h
  · exact (congrArg Prod.snd h).symm
  split at h
  · exact (congrArg Prod.snd h).symm
  split at h <;> first
    | exact (congrArg Prod.snd h).symm
    | (simp at h; done)

/-- Claim C9: decode-error atomicity: whenever the decoder raises any of
the three errors, the input cursor is exactly where it was at the start
of the call. -/
theorem C9_decode_error_atomic (it : List Nat) (e : InvalidUtf8)
    (h : (getUtf8Character it).1 = Except.error e) :
    (getUtf8Character it).2 = it := by
  have hfull : getUtf8Character it =
      (Except.error e, (getUtf8Character it).2) := by
    rw [← h]
  rw [hfull]
  exact getUtf8Character_error_iterator hfull

/-- Witness for claim C9 at the concrete erroneous input `0xFF`. -/
theorem C9_decode_error_atomic_witness :
    (getUtf8Character [0xff]).2 = [0xff] :=
  C9_decode_error_atomic [0xff] InvalidUtf8.invalidLeadByte (by rfl)

/-- Claim C5: the stream decoder decodes sequences left to right and, as
soon as any single decode fails, propagates that error to its caller and
discards every code point decoded so far: for any well-formed encoded
prefix followed by bytes whose first decode raises `e`, the whole
conversion returns `Except.error e` (no partial result). -/
theorem C5_decode_all_aborts_on_first_error (cs rest : List Nat)
    (e : InvalidUtf8) (h : ∀ c ∈ cs, c < 2 ^ 31) (hne : rest ≠ [])
    (herr : (getUtf8Character rest).1 = Except.error e) :
    convertUtf8ToWString (convertWStringToUtf8 cs ++ rest) =
      Except.error e := by
  have hfull : getUtf8Character rest =
      (Except.error e, (getUtf8Character rest).2) := by
    rw [← herr]
  induction cs with
  | nil =>
    rw [convertUtf8ToWString]
    simp only [convertWStringToUtf8, List.foldl_nil, List.nil_append]
    exact convertUtf8ToWStringLoop_error hne hfull
  | cons c cs ih =>
    have hc : c < 2 ^ 31 := h c (by simp)
    have hmod : c % 4294967296 = c := Nat.mod_eq_of_lt (by omega)
    rw [convertUtf8ToWString, convertWStringToUtf8_cons, hmod,
      List.append_assoc]
    have hdec := put_get c hc (convertWStringToUtf8 cs ++ rest)
    have hne2 : put_utf8_char c ++ (convertWStringToUtf8 cs ++ rest) ≠ [] := by
      intro hcontra
      exact put_utf8_char_ne_nil c (List.append_eq_nil.mp hcontra).1
    have htail : convertUtf8ToWStringLoop (convertWStringToUtf8 cs ++ rest) =
        Except.error e := ih (fun x hx => h x (by simp [hx]))
    exact convertUtf8ToWStringLoop_ok_error hne2 hdec htail

/-- Witness for claim C5: an encoded `A` followed by the invalid lead
byte `0xFF` makes the whole conversion fail with the invalid-lead-byte
error, discarding the already decoded `A`. -/
theorem C5_decode_all_aborts_on_first_error_witness :
    convertUtf8ToWString (convertWStringToUtf8 [0x41] ++ [0xff]) =
      Except.error InvalidUtf8.invalidLeadByte :=
  C5_decode_all_aborts_on_first_error [0x41] [0xff]
    InvalidUtf8.invalidLeadByte (by decide) (by decide) (by rfl)

/-- Counterexample to claim C2 as stated: the byte sequence
`0xC0 0x80` is accepted by the stream decoder (it decodes to the single
code point 0), yet re-encoding that result yields the single byte
`0x00`, not the original bytes — the decoder accepts overlong forms the
encoder never produces. -/
theorem C2_idempotence_counterexample :
    convertUtf8ToWString [0xc0, 0x80] = Except.ok [0] ∧
    convertWStringToUtf8 [0] ≠ [0xc0, 0x80] := by
  constructor
  · rw [convertUtf8ToWString]
    exact convertUtf8ToWStringLoop_ok_ok (by decide) (by rfl)
      convertUtf8ToWStringLoop_nil
  · decide

/-- Claim C2 (amended): re-encoding the decoding reproduces the byte
sequence when the sequence lies in the encoder's image, i.e. for
`b = encodeAll cs` with every code point below `2 ^ 31` (equivalently,
when every sequence in `b` is shortest-form): decoding `b` succeeds and
re-encoding the result gives `b` back. -/
theorem C2_amended_idempotence (cs : List Nat) (h : ∀ c ∈ cs, c < 2 ^ 31) :
    (convertUtf8ToWString (convertWStringToUtf8 cs)).map
        convertWStringToUtf8 =
      Except.ok (convertWStringToUtf8 cs) := by
  rw [decodeAll_encodeAll cs h]
  rfl

/-- Witness for amended claim C2 on the concrete text `A€`. -/
theorem C2_amended_idempotence_witness :
    (convertUtf8ToWString (convertWStringToUtf8 [0x41, 0x20ac])).map
        convertWStringToUtf8 =
      Except.ok (convertWStringToUtf8 [0x41, 0x20ac]) :=
  C2_amended_idempotence [0x41, 0x20ac] (by decide)
